import Mathlib

/-!
# go-chat: dispatcher fanout and subscription pumps

A shallow embedding of `server/server.go` (the `Server` with its `Broadcast`,
`eventloop` and `ServeWS`) and of `chat/subscription.go` (the `Subscription`
with its `Close`, `Read` and `Write`), followed by the properties proved about
them.

Modelling conventions.

* Go maps with string keys are association lists (`clients`) or finite sets
  (`Mapper`); `range` over a map is a loop over an explicit enumeration of its
  keys, supplied as an argument, because Go leaves the order unspecified.
* A `*websocket.Conn` is a record that logs every call made on it; a write
  reports an error when the socket is closed or its transport is broken.
* Channels are queues with a `closed` flag.
* Every call of `WriteJSON` made by `Broadcast` is one delivery attempt and is
  returned in a trace.
-/

namespace websocket

/-- A call made on a socket, in the order the program makes it. -/
inductive Call (μ : Type) where
  | setReadLimit (limit : Nat)
  | setWriteDeadline
  | writeJSON (v : μ)
  | writeClose
  | close
  deriving DecidableEq, Repr

/-- The state of a `*websocket.Conn` (gorilla/websocket, an external library):
whether `Close` was called, whether the transport fails writes, and the log of
calls made on it. -/
structure Conn (μ : Type) where
  closed : Bool
  broken : Bool
  calls : List (Call μ)
  deriving DecidableEq, Repr

namespace Conn

variable {μ : Type}

/-- A freshly upgraded socket. -/
def fresh : Conn μ := { closed := false, broken := false, calls := [] }

/-- Does a write on this socket report an error. -/
def writeFails (c : Conn μ) : Bool := c.closed || c.broken

/-- Go `c.WriteJSON(v)`: the call is logged; the result is `true` when the
write reports an error. -/
def WriteJSON (c : Conn μ) (v : μ) : Conn μ × Bool :=
  ({ c with calls := c.calls ++ [Call.writeJSON v] }, c.writeFails)

/-- Go `c.WriteMessage(websocket.CloseMessage, []byte{})`. -/
def WriteClose (c : Conn μ) : Conn μ × Bool :=
  ({ c with calls := c.calls ++ [Call.writeClose] }, c.writeFails)

/-- Go `c.SetWriteDeadline(time.Now().Add(writeWait))`; the instant itself is
not modelled. -/
def SetWriteDeadline (c : Conn μ) : Conn μ :=
  { c with calls := c.calls ++ [Call.setWriteDeadline] }

/-- Go `c.SetReadLimit(limit)`. -/
def SetReadLimit (c : Conn μ) (limit : Nat) : Conn μ :=
  { c with calls := c.calls ++ [Call.setReadLimit limit] }

/-- Go `c.Close()`. -/
def Close (c : Conn μ) : Conn μ :=
  { c with closed := true, calls := c.calls ++ [Call.close] }

end Conn

end websocket

namespace server

open websocket

/-- Go `maxMessageSize`. -/
def maxMessageSize : Nat := 512

/-- Go `type Message struct`; `From` carries the tag `json:"-"`. -/
structure Message where
  Data : String
  From : String
  Token : String
  Typ : String
  deriving DecidableEq, Repr

/-- The zero value of `Message` (`var msg Message`). -/
def Message.zero : Message := { Data := "", From := "", Token := "", Typ := "" }

/-! ### Decoding an inbound frame (`ws.ReadJSON(&msg)`) -/

/-- The value of one member of a JSON object, as far as decoding into the
string fields of `Message` can tell values apart. -/
inductive JVal where
  | str (s : String)
  | null
  | other
  deriving DecidableEq, Repr

/-- An inbound frame as `ReadJSON` sees it: `rejected` is a frame the socket
or the JSON reader refuses (read error, closed socket, frame above the read
limit, text that is not JSON), `null` is the JSON value null, `object` is a
JSON object with its members in order, `nonObject` any other JSON value. -/
inductive Frame where
  | rejected
  | null
  | object (members : List (String × JVal))
  | nonObject
  deriving DecidableEq, Repr

/-- Case folding of one character of a member name, as far as it bears on
the ASCII field names: `encoding/json` folds the ASCII letters, and also folds
the Kelvin sign U+212A with k and the long s U+017F with s. -/
def foldChar (c : Char) : Char :=
  if c = Char.ofNat 0x212A then Char.ofNat 0x6B
  else if c = Char.ofNat 0x17F then Char.ofNat 0x73
  else c.toLower

/-- Case folding of a member name; `encoding/json` matches member names
against field names without regard to case. -/
def foldName (k : String) : String := String.mk (k.data.map foldChar)

/-- Decoding of one object member into `msg`, following the struct tags of
`Message`: `data`, `token` and `type` name the fields `Data`, `Token` and
`Type`; `From` is tagged `json:"-"` and is named by no member. A null leaves
the field as it is, a value that is not a string is an error, a member that
names no field is skipped. -/
def decodeMember (msg : Message) (kv : String × JVal) : Option Message :=
  if foldName kv.1 = "data" then
    match kv.2 with
    | JVal.str v => some { msg with Data := v }
    | JVal.null => some msg
    | JVal.other => none
  else if foldName kv.1 = "token" then
    match kv.2 with
    | JVal.str v => some { msg with Token := v }
    | JVal.null => some msg
    | JVal.other => none
  else if foldName kv.1 = "type" then
    match kv.2 with
    | JVal.str v => some { msg with Typ := v }
    | JVal.null => some msg
    | JVal.other => none
  else some msg

/-- Decoding of the members of an object, in order, into `msg`. -/
def decodeMembers : List (String × JVal) → Message → Option Message
  | [], msg => some msg
  | kv :: rest, msg =>
    match decodeMember msg kv with
    | some msg1 => decodeMembers rest msg1
    | none => none

/-- Go `ws.ReadJSON(&msg)` on the next inbound frame: `none` is an error,
`some m` is the value of `msg` after a successful decode. -/
def ReadJSON (frame : Frame) (msg : Message) : Option Message :=
  match frame with
  | Frame.rejected => none
  | Frame.null => some msg
  | Frame.object members => decodeMembers members msg
  | Frame.nonObject => none

/-! ### The relationship mapper -/

/-- Modelled from the spec: the type `Mapper` with `NewMapper`, `Add`, `Get`
and `Delete` is declared outside the available sources. Section 3 describes it
as a mapping from sender-id to a set of peer-ids, that is a finite set of
directed edges. -/
abbrev Mapper := Finset (String × String)

/-- Modelled from the spec: `NewMapper` is declared outside the available
sources; a new mapper has no edge. -/
def NewMapper : Mapper := ∅

/-- Modelled from the spec: `Mapper.Add` is declared outside the available
sources. Section 4.3: inserts a directed edge a→b; re-adding an existing edge
is a no-op. -/
def Mapper.Add (m : Mapper) (a b : String) : Mapper := insert (a, b) m

/-- Modelled from the spec: `Mapper.Get` is declared outside the available
sources. Section 4.3: returns the current fanout set for sender a; the empty
set if a has no edges. -/
def Mapper.Get (m : Mapper) (a : String) : Finset String :=
  (m.filter (fun e => e.1 = a)).image Prod.snd

/-- Modelled from the spec: `Mapper.Delete` is declared outside the available
sources. Section 4.3: removes a as both a source and as a target from every
other node's edge set. -/
def Mapper.Delete (m : Mapper) (a : String) : Mapper :=
  m.filter (fun e => e.1 ≠ a ∧ e.2 ≠ a)

/-! ### The server -/

/-- Go `map[string]*websocket.Conn`: an association list read by first match. -/
abbrev Clients := List (String × Conn Message)

/-- Go `client, found := clients[key]`. -/
def Clients.get (cs : Clients) (key : String) : Option (Conn Message) :=
  match cs with
  | [] => none
  | (k, c) :: rest => if k = key then some c else Clients.get rest key

/-- Go `delete(clients, key)`. -/
def Clients.delete (cs : Clients) (key : String) : Clients :=
  cs.filter (fun kc => kc.1 ≠ key)

/-- Go `clients[key] = c`: the entry of `key` is replaced when there is one,
added otherwise. -/
def Clients.set (cs : Clients) (key : String) (c : Conn Message) : Clients :=
  match cs with
  | [] => [(key, c)]
  | (k, c0) :: rest =>
    if k = key then (k, c) :: rest else (k, c0) :: Clients.set rest key c

/-- The keys of the map. -/
def Clients.keys (cs : Clients) : List String := cs.map Prod.fst

/-- Go `type Server struct`, without its two channels: a send on `broadcast`
is the argument `msg` of `eventloop`. -/
structure Server where
  clients : Clients
  mapper : Mapper
  deriving DecidableEq

/-- Go `New`, without the start of the event loop. -/
def New : Server := { clients := [], mapper := NewMapper }

/-- One delivery attempt: the peer whose socket `WriteJSON` was called on, and
the message passed to it. -/
abbrev Attempt := String × Message

/-- What a call of `Broadcast` leaves behind: the server, whether it returned
an error, and the delivery attempts it made. -/
structure Sent where
  server : Server
  err : Bool
  attempts : List Attempt
  deriving DecidableEq

/-- Go `func (s *Server) Broadcast(from, to string, msg Message) error`. The
socket in `clients` is a pointer in Go, so the calls made on it are visible in
the map afterwards. -/
def Server.Broadcast (s : Server) (_sender dest : String) (msg : Message) : Sent :=
  match s.clients.get dest with
  | some client =>
    let w := client.WriteJSON msg
    if w.2 then
      { server := { clients := s.clients.set dest w.1.Close,
                    mapper := s.mapper.Delete dest },
        err := true,
        attempts := [(dest, msg)] }
    else
      { server := { s with clients := s.clients.set dest w.1 },
        err := false,
        attempts := [(dest, msg)] }
  | none => { server := s, err := false, attempts := [] }

/-- The sequence `order` is one in which `range` can yield the members of the
set `S`: each member once, in any order. -/
def RangeOrder (order : List String) (S : Finset String) : Prop :=
  order.Nodup ∧ order.toFinset = S

instance (order : List String) (S : Finset String) : Decidable (RangeOrder order S) := by
  unfold RangeOrder; infer_instance

/-- The loop `for peer := range clients` of `eventloop`, over the peers in the
order `range` yields them; the error `Broadcast` returns is dropped. -/
def Server.fanout (s : Server) (msg : Message) : List String → Server × List Attempt
  | [] => (s, [])
  | peer :: rest =>
    let r := s.Broadcast msg.From peer msg
    let t := Server.fanout r.server msg rest
    (t.1, r.attempts ++ t.2)

/-- Go `eventloop`, the branch `case msg := <-s.broadcast`: the candidate
peers are `s.mapper.Get(msg.From)`, visited in the order `order`. -/
def Server.eventloop (s : Server) (msg : Message) (order : List String) :
    Server × List Attempt :=
  s.fanout msg order

/-- Go `fmt.Sprint` of a non-negative int. -/
def Sprint (n : Nat) : String := Nat.repr n

/-- Go `ServeWS`, from `room := fmt.Sprint(len(s.clients) + 1)`. -/
def Server.room (s : Server) : String := Sprint (s.clients.length + 1)

/-- Go `ServeWS` after a successful upgrade, up to `s.clients[room] = ws`:
the peer-id is assigned, rooms "1" and "2" seed the mapper, the socket is
registered. -/
def Server.register (s : Server) (ws : Conn Message) : Server :=
  let room := s.room
  let m1 := if room = "1" then s.mapper.Add "1" "2" else s.mapper
  let m2 := if room = "2" then m1.Add "2" "1" else m1
  { clients := s.clients.set room ws, mapper := m2 }

/-- Go `ServeWS`, the deferred function that runs when the handler of `room`
returns. -/
def Server.cleanup (s : Server) (room : String) : Server :=
  { clients := s.clients.delete room, mapper := s.mapper.Delete room }

/-- Go `ServeWS`, the handler of `room` waiting in `ws.ReadJSON` (the read
loop): once its socket has been closed the read returns an error, the handler
returns and its deferred function runs; on an open socket it keeps waiting.
This is a step of the handler, scheduled after the call that closed the
socket has returned. -/
def Server.wake (s : Server) (room : String) : Server :=
  match s.clients.get room with
  | some ws => if ws.closed then s.cleanup room else s
  | none => s

/-- Go `ServeWS`, one pass of the read loop on the next inbound frame: `none`
when `ReadJSON` fails and the handler returns, `some msg` when `msg` is sent
on `s.broadcast`. -/
def readPass (room : String) (frame : Frame) : Option Message :=
  let msg := Message.zero
  let msg := { msg with From := room }
  ReadJSON frame msg

end server

namespace chat

open websocket

/-- Modelled from the spec: the constant `maxMessageSize` of package chat is
declared outside the available sources; Section 4.2 speaks of one fixed
maximum frame size, taken here with the value it has in package server. -/
def maxMessageSize : Nat := 512

/-- Modelled from the spec: `chat.Message` is declared outside the available
sources; Section 3 gives a Message the fields Data, From, Token and Type. -/
structure Message where
  Data : String
  From : String
  Token : String
  Typ : String
  deriving DecidableEq, Repr

/-- A Go channel: the values waiting in it and whether `close` was called. -/
structure Chan (α : Type) where
  queue : List α
  closed : Bool
  deriving DecidableEq, Repr

/-- Modelled from the spec: `chat.Client` is declared outside the available
sources; `subscription.go` uses its fields `Conn` (the socket) and `Send` (the
outbound queue of Section 3). -/
structure Client where
  Conn : Conn Message
  Send : Chan Message
  deriving DecidableEq, Repr

/-- Go `type Subscription struct`. -/
structure Subscription where
  Client : Client
  Room : String
  deriving DecidableEq, Repr

/-- Modelled from the spec: `chat.Room` is declared outside the available
sources; `Read` sends on its channel `Unsubscribe`, here the list of the
subscriptions sent on it. -/
structure Room where
  Unsubscribe : List Subscription
  deriving DecidableEq, Repr

/-- Modelled from the spec: `chat.PubSub` is declared outside the available
sources; `Read` calls `Publish(msg)`, which returns an error or nil (Section 7,
PublishError). `published` logs the messages handed to `Publish`; `rejects`
tells, from the messages handed before and the message handed now, whether
`Publish` returns an error. -/
structure PubSub where
  published : List Message
  rejects : List Message → Message → Bool

/-- Go `pubsub.Publish(msg)`: the second component is `true` on an error. -/
def PubSub.Publish (p : PubSub) (msg : Message) : PubSub × Bool :=
  ({ p with published := p.published ++ [msg] }, p.rejects p.published msg)

/-- Every message of `ms`, handed to `Publish` in order, is accepted. -/
def PubSub.acceptsAll (p : PubSub) : List Message → Bool
  | [] => true
  | m :: rest => !(p.Publish m).2 && PubSub.acceptsAll (p.Publish m).1 rest

/-- Go `func (s *Subscription) Close()`. -/
def Subscription.Close (s : Subscription) : Subscription :=
  { s with Client := { s.Client with Conn := s.Client.Conn.Close } }

/-- The `for` loop of `Read`. `inbound` lists what the successive calls of
`ReadJSON` return (`none` is an error, `some msg` a decoded message). The
second component is `true` when the loop is left by `break`, `false` when the
loop is still waiting in `ReadJSON` after the listed frames. -/
def Subscription.readLoop (pubsub : PubSub) : List (Option Message) → PubSub × Bool
  | [] => (pubsub, false)
  | none :: _ => (pubsub, true)
  | some msg :: rest =>
    let p := pubsub.Publish msg
    if p.2 then (p.1, true) else Subscription.readLoop p.1 rest

/-- What `Read` leaves behind. -/
structure ReadResult where
  pubsub : PubSub
  room : Room
  sub : Subscription
  returned : Bool

/-- Go `func (s *Subscription) Read(pubsub *PubSub, room *Room)`. -/
def Subscription.Read (s : Subscription) (pubsub : PubSub) (room : chat.Room)
    (inbound : List (Option Message)) : ReadResult :=
  let s1 : Subscription :=
    { s with Client := { s.Client with Conn := s.Client.Conn.SetReadLimit maxMessageSize } }
  let r := Subscription.readLoop pubsub inbound
  if r.2 then
    { pubsub := r.1,
      room := { Unsubscribe := room.Unsubscribe ++ [s1] },
      sub := s1.Close,
      returned := true }
  else
    { pubsub := r.1, room := room, sub := s1, returned := false }

/-- The `for` loop of `Write` on the socket `conn`, over the messages waiting
in `c.Send`; `closed` tells whether the queue is closed behind them. The
results of the writes are dropped, as in the source. The second component is
`true` when `Write` returns, `false` when it is still waiting on the open,
empty queue. -/
def Subscription.writeLoop (conn : Conn Message) (closed : Bool) :
    List Message → Conn Message × Bool
  | [] =>
    if closed then (conn.SetWriteDeadline.WriteClose.1, true) else (conn, false)
  | message :: rest =>
    Subscription.writeLoop (conn.SetWriteDeadline.WriteJSON message).1 closed rest

/-- Go `func (s *Subscription) Write()`: the subscription it leaves, and
whether it returned. -/
def Subscription.Write (s : Subscription) : Subscription × Bool :=
  let r := Subscription.writeLoop s.Client.Conn s.Client.Send.closed s.Client.Send.queue
  ({ s with Client := { Conn := r.1,
                        Send := { queue := [], closed := s.Client.Send.closed } } }, r.2)

end chat

/-! ## Transitions and fixtures -/

namespace server

open websocket

/-- What happens to the routing state of a server between two messages: a
connection is accepted and registered by `ServeWS`, or the handler of `room`
returns and its deferred function runs. -/
inductive Event where
  | connect (ws : Conn Message)
  | disconnect (room : String)
  deriving DecidableEq

/-- The effect of one event. -/
def Server.step (s : Server) : Event → Server
  | Event.connect ws => s.register ws
  | Event.disconnect room => s.cleanup room

/-- The effect of a sequence of events. -/
def Server.run (s : Server) (events : List Event) : Server :=
  events.foldl Server.step s

/-- The events are connects and disconnects in which every disconnect is that
of the peer registered last among the peers still registered, whose id is
`fmt.Sprint(len(s.clients))`. -/
def Server.lastFirst (s : Server) : List Event → Bool
  | [] => true
  | Event.connect ws :: rest => Server.lastFirst (s.register ws) rest
  | Event.disconnect room :: rest =>
    decide (room = Sprint s.clients.length) && Server.lastFirst (s.cleanup room) rest

/-- The value a string of decimal digits stands for, after the value `acc` of
the digits before it. -/
def digitsValue (acc : Nat) (cs : List Char) : Nat :=
  cs.foldl (fun a c => a * 10 + (c.toNat - 48)) acc

/-- The registered peer-ids are the numerals of 1, ..., `len(s.clients)`, in
this order. -/
def Server.Ordinal (s : Server) : Prop :=
  s.clients.keys = (List.range s.clients.length).map (fun i => Sprint (i + 1))

/-- Every registered peer-id is the numeral of a number from 1 to
`len(s.clients)`. -/
def Server.Bounded (s : Server) : Prop :=
  ∀ k ∈ s.clients.keys, k ∈ (List.range s.clients.length).map (fun i => Sprint (i + 1))

instance (s : Server) : Decidable s.Bounded := by
  unfold Server.Bounded; infer_instance

/-- The events that connect the sockets `conns` one after the other. -/
def connects (conns : List (Conn Message)) : List Event := conns.map Event.connect

/-- The message `hello` from peer "1". -/
def hello : Message := { Data := "hello", From := "1", Token := "", Typ := "" }

/-- A socket whose transport fails every write. -/
def brokenConn : Conn Message := { closed := false, broken := true, calls := [] }

/-- Two peers connected to a new server, the socket of peer "2" broken. -/
def twoPeersBroken : Server := (New.register Conn.fresh).register brokenConn

/-- Peers "a", "b", "c" and "d" with the edges a→b and a→c. -/
def trio : Server :=
  { clients := [("a", Conn.fresh), ("b", Conn.fresh), ("c", Conn.fresh), ("d", Conn.fresh)],
    mapper := (NewMapper.Add "a" "b").Add "a" "c" }

/-- The server `trio` with the socket of peer "b" broken. -/
def trioBroken : Server :=
  { clients := [("a", Conn.fresh), ("b", brokenConn), ("c", Conn.fresh), ("d", Conn.fresh)],
    mapper := (NewMapper.Add "a" "b").Add "a" "c" }

/-- The message of the round-trip scenario, from peer "1". -/
def fromOne : Message := { Data := "hi", From := "1", Token := "t", Typ := "chat" }

/-- A message from peer "a". -/
def fromA : Message := { Data := "hi", From := "a", Token := "t", Typ := "chat" }

/-- The members of an object that are not named `from`. -/
def withoutFrom (members : List (String × JVal)) : List (String × JVal) :=
  members.filter (fun kv => foldName kv.1 ≠ "from")

end server

namespace chat

open websocket

/-- The pubsub after the messages `ms` were handed to `Publish` in order. -/
def PubSub.handAll (p : PubSub) : List Message → PubSub
  | [] => p
  | m :: rest => PubSub.handAll (p.Publish m).1 rest

/-- The calls on the socket that writing the messages `ms` in order consists
of: for each message a write deadline, then the frame. -/
def writeCalls : List Message → List (Call Message)
  | [] => []
  | m :: rest => Call.setWriteDeadline :: Call.writeJSON m :: writeCalls rest

/-- A chat message with the given text. -/
def text (data : String) : Message := { Data := data, From := "", Token := "", Typ := "chat" }

/-- A subscription of room "r" on a fresh socket whose queue is open and empty. -/
def idle : Subscription :=
  { Client := { Conn := Conn.fresh, Send := { queue := [], closed := false } }, Room := "r" }

/-- A pubsub that has been handed nothing and rejects the message "bad". -/
def picky : PubSub := { published := [], rejects := fun _ m => decide (m.Data = "bad") }

end chat

/-! ## Properties of the server -/

namespace server

open websocket

theorem Clients.get_set_same (cs : Clients) (k : String) (c : Conn Message) :
    (cs.set k c).get k = some c := by
  induction cs with
  | nil => simp [Clients.set, Clients.get]
  | cons kc rest ih =>
    obtain ⟨k0, c0⟩ := kc
    by_cases h : k0 = k
    · simp [Clients.set, Clients.get, h]
    · simp [Clients.set, Clients.get, h, ih]

theorem Clients.get_set_ne (cs : Clients) (k q : String) (c : Conn Message) (hq : q ≠ k) :
    (cs.set k c).get q = cs.get q := by
  induction cs with
  | nil => simp [Clients.set, Clients.get, Ne.symm hq]
  | cons kc rest ih =>
    obtain ⟨k0, c0⟩ := kc
    by_cases h : k0 = k
    · subst h
      simp [Clients.set, Clients.get, Ne.symm hq]
    · by_cases h2 : k0 = q
      · subst h2
        simp [Clients.set, Clients.get, h]
      · simp [Clients.set, Clients.get, h, h2, ih]

theorem Clients.get_set_isSome (cs : Clients) (k q : String) (c : Conn Message)
    (hk : (cs.get k).isSome = true) :
    ((cs.set k c).get q).isSome = (cs.get q).isSome := by
  by_cases hq : q = k
  · subst hq
    rw [Clients.get_set_same, hk]; rfl
  · rw [Clients.get_set_ne cs k q c hq]

theorem Clients.get_delete_self (cs : Clients) (k : String) : (cs.delete k).get k = none := by
  induction cs with
  | nil => rfl
  | cons kc rest ih =>
    obtain ⟨k0, c0⟩ := kc
    unfold Clients.delete at ih ⊢
    by_cases h : k0 = k
    · rw [List.filter_cons_of_neg (by simp [h])]
      exact ih
    · rw [List.filter_cons_of_pos (by simp [h])]
      simp only [Clients.get, h, if_false]
      exact ih

theorem Mapper.Delete_subset (m : Mapper) (a : String) : m.Delete a ⊆ m := by
  unfold Mapper.Delete
  exact Finset.filter_subset _ _

theorem Mapper.not_mem_Get_Delete (m : Mapper) (a x : String) : a ∉ (m.Delete a).Get x := by
  simp [Mapper.Get, Mapper.Delete]

theorem Mapper.Get_Delete_self (m : Mapper) (a : String) : (m.Delete a).Get a = ∅ := by
  ext x
  simp [Mapper.Get, Mapper.Delete]

theorem Mapper.Get_mono {m1 m2 : Mapper} (h : m1 ⊆ m2) (a : String) : m1.Get a ⊆ m2.Get a := by
  unfold Mapper.Get
  exact Finset.image_subset_image (Finset.filter_subset_filter _ h)

theorem Server.Broadcast_unregistered (s : Server) (a p : String) (msg : Message)
    (h : s.clients.get p = none) :
    s.Broadcast a p msg = { server := s, err := false, attempts := [] } := by
  simp [Server.Broadcast, h]

theorem Server.Broadcast_attempts (s : Server) (a p : String) (msg : Message) :
    (s.Broadcast a p msg).attempts = if (s.clients.get p).isSome then [(p, msg)] else [] := by
  unfold Server.Broadcast
  cases h : s.clients.get p with
  | none => simp
  | some c => by_cases hw : (c.WriteJSON msg).2 = true <;> simp [hw]

theorem Server.Broadcast_get_isSome (s : Server) (a p q : String) (msg : Message) :
    ((s.Broadcast a p msg).server.clients.get q).isSome = (s.clients.get q).isSome := by
  unfold Server.Broadcast
  cases h : s.clients.get p with
  | none => simp
  | some c =>
    have hk : (s.clients.get p).isSome = true := by rw [h]; rfl
    by_cases hw : (c.WriteJSON msg).2 = true <;>
      simp [hw, Clients.get_set_isSome s.clients p q _ hk]

theorem Server.Broadcast_get_ne (s : Server) (a p q : String) (msg : Message) (hq : q ≠ p) :
    (s.Broadcast a p msg).server.clients.get q = s.clients.get q := by
  unfold Server.Broadcast
  cases h : s.clients.get p with
  | none => simp
  | some c =>
    by_cases hw : (c.WriteJSON msg).2 = true <;>
      simp [hw, Clients.get_set_ne s.clients p q _ hq]

theorem Server.Broadcast_mapper_subset (s : Server) (a p : String) (msg : Message) :
    (s.Broadcast a p msg).server.mapper ⊆ s.mapper := by
  unfold Server.Broadcast
  cases h : s.clients.get p with
  | none => simp
  | some c =>
    by_cases hw : (c.WriteJSON msg).2 = true
    · simp [hw, Mapper.Delete_subset]
    · simp [hw]

theorem Server.Broadcast_get_self (s : Server) (a p : String) (msg : Message)
    (c : Conn Message) (hc : s.clients.get p = some c) :
    (s.Broadcast a p msg).server.clients.get p =
      some (if c.writeFails then
          { closed := true, broken := c.broken,
            calls := c.calls ++ [Call.writeJSON msg, Call.close] }
        else
          { closed := c.closed, broken := c.broken,
            calls := c.calls ++ [Call.writeJSON msg] }) := by
  by_cases hw : c.writeFails = true
  · simp [Server.Broadcast, hc, Conn.WriteJSON, Conn.Close, hw, Clients.get_set_same]
  · simp [Server.Broadcast, hc, Conn.WriteJSON, hw, Clients.get_set_same]

theorem Server.fanout_get_of_not_mem (msg : Message) (q : String) (order : List String) :
    ∀ s : Server, q ∉ order → (s.fanout msg order).1.clients.get q = s.clients.get q := by
  induction order with
  | nil => intro s _; rfl
  | cons p rest ih =>
    intro s hq
    have h1 : q ≠ p := fun h => hq (by simp [h])
    have h2 : q ∉ rest := fun h => hq (by simp [h])
    simp only [Server.fanout]
    rw [ih _ h2, Server.Broadcast_get_ne s msg.From p q msg h1]

theorem Server.fanout_get_of_mem (msg : Message) (q : String) (c : Conn Message)
    (order : List String) :
    ∀ s : Server, order.Nodup → q ∈ order → s.clients.get q = some c →
      (s.fanout msg order).1.clients.get q =
        some (if c.writeFails then
            { closed := true, broken := c.broken,
              calls := c.calls ++ [Call.writeJSON msg, Call.close] }
          else
            { closed := c.closed, broken := c.broken,
              calls := c.calls ++ [Call.writeJSON msg] }) := by
  induction order with
  | nil => intro s _ h; simp at h
  | cons p rest ih =>
    intro s hnd hq hc
    obtain ⟨hp, hrest⟩ := List.nodup_cons.1 hnd
    simp only [Server.fanout]
    by_cases hqp : q = p
    · subst hqp
      rw [Server.fanout_get_of_not_mem msg q rest _ hp]
      exact Server.Broadcast_get_self s msg.From q msg c hc
    · have hmem : q ∈ rest := by
        rcases List.mem_cons.1 hq with h | h
        · exact absurd h hqp
        · exact h
      exact ih _ hrest hmem (by rw [Server.Broadcast_get_ne s msg.From p q msg hqp]; exact hc)

theorem Server.fanout_attempts (msg : Message) (order : List String) :
    ∀ s : Server, (s.fanout msg order).2 =
      (order.filter (fun p => (s.clients.get p).isSome)).map (fun p => (p, msg)) := by
  induction order with
  | nil => intro s; rfl
  | cons p rest ih =>
    intro s
    have hf : (fun q => ((s.Broadcast msg.From p msg).server.clients.get q).isSome)
        = (fun q => (s.clients.get q).isSome) := by
      funext q
      exact Server.Broadcast_get_isSome s msg.From p q msg
    simp only [Server.fanout, ih, Server.Broadcast_attempts, hf]
    by_cases hp : (s.clients.get p).isSome = true
    · simp [List.filter_cons, hp]
    · simp [List.filter_cons, hp]

theorem Server.fanout_mapper_subset (msg : Message) (order : List String) :
    ∀ s : Server, (s.fanout msg order).1.mapper ⊆ s.mapper := by
  induction order with
  | nil => intro s; exact Finset.Subset.refl _
  | cons p rest ih =>
    intro s
    exact Finset.Subset.trans (ih _) (Server.Broadcast_mapper_subset s msg.From p msg)

theorem Server.Broadcast_mapper_of_success (s : Server) (a p : String) (msg : Message)
    (h : (s.clients.get p).map Conn.writeFails = some false) :
    (s.Broadcast a p msg).server.mapper = s.mapper := by
  unfold Server.Broadcast
  cases hc : s.clients.get p with
  | none => simp [hc] at h
  | some c =>
    have hw : c.writeFails = false := by simpa [hc] using h
    simp [Conn.WriteJSON, hw]

theorem Server.fanout_mapper_of_success (msg : Message) (order : List String) :
    ∀ s : Server, order.Nodup →
      (∀ p ∈ order, (s.clients.get p).map Conn.writeFails = some false) →
      (s.fanout msg order).1.mapper = s.mapper := by
  induction order with
  | nil => intro s _ _; rfl
  | cons p rest ih =>
    intro s hnd h
    obtain ⟨hp, hrest⟩ := List.nodup_cons.1 hnd
    simp only [Server.fanout]
    rw [ih _ hrest, Server.Broadcast_mapper_of_success s msg.From p msg (h p (by simp))]
    intro q hq
    have hqp : q ≠ p := fun e => hp (e ▸ hq)
    rw [Server.Broadcast_get_ne s msg.From p q msg hqp]
    exact h q (by simp [hq])

theorem Server.Broadcast_failure (s : Server) (a p : String) (msg : Message)
    (h : (s.clients.get p).map Conn.writeFails = some true) :
    (s.Broadcast a p msg).server.mapper = s.mapper.Delete p ∧ (s.Broadcast a p msg).err = true := by
  unfold Server.Broadcast
  cases hc : s.clients.get p with
  | none => simp [hc] at h
  | some c =>
    have hw : c.writeFails = true := by simpa [hc] using h
    simp [Conn.WriteJSON, hw]

theorem Server.fanout_purged (msg : Message) (P : String) (order : List String) :
    ∀ s : Server, P ∈ order → order.Nodup →
      (s.clients.get P).map Conn.writeFails = some true →
      (s.fanout msg order).1.mapper ⊆ s.mapper.Delete P := by
  induction order with
  | nil => intro s h; simp at h
  | cons p rest ih =>
    intro s hP hnd hfail
    by_cases hp : p = P
    · subst hp
      have h1 := (Server.Broadcast_failure s msg.From p msg hfail).1
      have h2 := Server.fanout_mapper_subset msg rest (s.Broadcast msg.From p msg).server
      rw [h1] at h2
      exact h2
    · have hmem : P ∈ rest := by
        rcases List.mem_cons.1 hP with h | h
        · exact absurd h.symm hp
        · exact h
      have hget : (s.Broadcast msg.From p msg).server.clients.get P = s.clients.get P :=
        Server.Broadcast_get_ne s msg.From p P msg (fun h => hp h.symm)
      have h3 := ih (s.Broadcast msg.From p msg).server hmem (List.nodup_cons.1 hnd).2
        (by rw [hget]; exact hfail)
      intro e he
      have he2 := h3 he
      have hsub := Server.Broadcast_mapper_subset s msg.From p msg
      simp only [Mapper.Delete, Finset.mem_filter] at he2 ⊢
      exact ⟨hsub he2.1, he2.2⟩

theorem RangeOrder.eq_nil {order : List String} (h : RangeOrder order ∅) : order = [] := by
  have := h.2
  simpa using this

theorem RangeOrder.eq_singleton {order : List String} {x : String}
    (h : RangeOrder order {x}) : order = [x] := by
  obtain ⟨hn, hs⟩ := h
  have hmem : ∀ y, y ∈ order ↔ y = x := by
    intro y
    rw [← List.mem_toFinset, hs]
    simp
  match order, hn, hmem with
  | [], _, hm => exact absurd ((hm x).2 rfl) (by simp)
  | [a], _, hm =>
    have := (hm a).1 (by simp)
    simp [this]
  | a :: b :: t, hn, hm =>
    have ha := (hm a).1 (by simp)
    have hb := (hm b).1 (by simp)
    subst ha
    subst hb
    simp at hn

theorem register_two (c1 c2 : Conn Message) :
    (New.register c1).register c2 =
      { clients := [("1", c1), ("2", c2)], mapper := {("1", "2"), ("2", "1")} } := by
  have h1 : Sprint 1 = "1" := by decide
  have h2 : Sprint 2 = "2" := by decide
  have h3 : ({("2", "1"), ("1", "2")} : Finset (String × String))
      = {("1", "2"), ("2", "1")} := by decide
  simp [Server.register, Server.room, New, NewMapper, Mapper.Add, Clients.set, h1, h2, h3]

theorem countP_attempts (l : List String) (msg : Message) (q : String) :
    (l.map (fun p => ((p, msg) : Attempt))).countP (fun a => a.1 = q) = l.count q := by
  induction l with
  | nil => rfl
  | cons p rest ih =>
    by_cases h : p = q
    · simp [List.countP_cons, List.count_cons, h] at ih ⊢
      exact ih
    · simp [List.countP_cons, List.count_cons, h] at ih ⊢
      exact ih

theorem Server.eventloop_attempts (s : Server) (msg : Message) (order : List String) :
    (s.eventloop msg order).2 =
      (order.filter (fun p => (s.clients.get p).isSome)).map (fun p => ((p, msg) : Attempt)) :=
  Server.fanout_attempts msg order s

theorem decodeMember_From (msg m : Message) (kv : String × JVal)
    (h : decodeMember msg kv = some m) : m.From = msg.From := by
  unfold decodeMember at h
  split_ifs at h <;> (cases hv : kv.2 <;> simp [hv] at h <;> (subst h; rfl))

theorem decodeMembers_From (members : List (String × JVal)) :
    ∀ msg m : Message, decodeMembers members msg = some m → m.From = msg.From := by
  induction members with
  | nil => intro msg m h; simp [decodeMembers] at h; subst h; rfl
  | cons kv rest ih =>
    intro msg m h
    simp only [decodeMembers] at h
    cases hd : decodeMember msg kv with
    | none => simp [hd] at h
    | some m1 =>
      simp only [hd] at h
      rw [ih m1 m h, decodeMember_From msg m1 kv hd]

theorem decodeMember_from (msg : Message) (kv : String × JVal) (h : foldName kv.1 = "from") :
    decodeMember msg kv = some msg := by
  have h1 : ("from" : String) ≠ "data" := by decide
  have h2 : ("from" : String) ≠ "token" := by decide
  have h3 : ("from" : String) ≠ "type" := by decide
  simp [decodeMember, h, h1, h2, h3]

theorem decodeMembers_withoutFrom (members : List (String × JVal)) :
    ∀ msg : Message, decodeMembers (withoutFrom members) msg = decodeMembers members msg := by
  induction members with
  | nil => intro msg; rfl
  | cons kv rest ih =>
    intro msg
    unfold withoutFrom at ih ⊢
    by_cases h : foldName kv.1 = "from"
    · rw [List.filter_cons_of_neg (by simp [h])]
      simp only [decodeMembers, decodeMember_from msg kv h]
      exact ih msg
    · rw [List.filter_cons_of_pos (by simp [h])]
      simp only [decodeMembers]
      cases hd : decodeMember msg kv with
      | none => rfl
      | some m1 => exact ih m1

theorem readPass_From (room : String) (frame : Frame) (msg : Message)
    (h : readPass room frame = some msg) : msg.From = room := by
  unfold readPass ReadJSON at h
  cases frame with
  | rejected => simp at h
  | null => simp at h; subst h; rfl
  | object members => exact decodeMembers_From members _ msg h
  | nonObject => simp at h

/-- C1. Fanout exactness: when every member of the fanout set
`S = s.mapper.Get msg.From` is registered in `clients` and the write on its
socket succeeds, handling `msg` in `eventloop` calls `WriteJSON(msg)` exactly
once on the socket of each peer of `S` and makes no other call on it, leaves
the socket of every peer outside `S` as it was, and leaves the mapper as it
was, whatever the order in which `range` yields the peers; the trace of
delivery attempts has one entry for each peer of `S`, none for any other
peer, and every entry carries `msg`. -/
theorem C1_fanout_exact (s : Server) (msg : Message) (order : List String)
    (hord : RangeOrder order (s.mapper.Get msg.From))
    (hreg : ∀ p ∈ s.mapper.Get msg.From,
      (s.clients.get p).map Conn.writeFails = some false) :
    (∀ p ∈ s.mapper.Get msg.From, ∀ c, s.clients.get p = some c →
      (s.eventloop msg order).1.clients.get p =
        some { closed := c.closed, broken := c.broken,
               calls := c.calls ++ [Call.writeJSON msg] }) ∧
    (∀ q, q ∉ s.mapper.Get msg.From →
      (s.eventloop msg order).1.clients.get q = s.clients.get q) ∧
    (s.eventloop msg order).1.mapper = s.mapper ∧
    (∀ p, (s.eventloop msg order).2.countP (fun a => a.1 = p) =
        if p ∈ s.mapper.Get msg.From then 1 else 0) ∧
    (∀ a ∈ (s.eventloop msg order).2, a.2 = msg) := by
  have hmemS : ∀ p, p ∈ order ↔ p ∈ s.mapper.Get msg.From := by
    intro p
    rw [← hord.2, List.mem_toFinset]
  have hall : order.filter (fun p => (s.clients.get p).isSome) = order := by
    apply List.filter_eq_self.2
    intro p hp
    have hr := hreg p ((hmemS p).1 hp)
    cases h : s.clients.get p with
    | none => simp [h] at hr
    | some c => rfl
  have hok : ∀ p ∈ order, (s.clients.get p).map Conn.writeFails = some false :=
    fun p hp => hreg p ((hmemS p).1 hp)
  refine ⟨?_, ?_, ?_, ?_, ?_⟩
  · intro p hp c hc
    have hw : c.writeFails = false := by
      have hr := hreg p hp
      simpa [hc] using hr
    have h := Server.fanout_get_of_mem msg p c order s hord.1 ((hmemS p).2 hp) hc
    simpa [Server.eventloop, hw] using h
  · intro q hq
    exact Server.fanout_get_of_not_mem msg q order s (fun h => hq ((hmemS q).1 h))
  · exact Server.fanout_mapper_of_success msg order s hord.1 hok
  · intro p
    rw [Server.eventloop_attempts, hall, countP_attempts, List.count_eq_of_nodup hord.1,
      ← hord.2]
    simp only [List.mem_toFinset]
  · intro a ha
    rw [Server.eventloop_attempts] at ha
    obtain ⟨q, _, rfl⟩ := List.mem_map.1 ha
    rfl

/-- Witness of C1 on the server `trio`: a message from "a", whose fanout set
is b, c; the sockets of "b" and "c" get the one frame, those of "a" and "d"
none. -/
theorem C1_fanout_exact_witness :
    RangeOrder ["b", "c"] (trio.mapper.Get fromA.From) ∧
    (∀ p ∈ trio.mapper.Get fromA.From,
      (trio.clients.get p).map Conn.writeFails = some false) ∧
    (trio.eventloop fromA ["b", "c"]).1.clients =
      [("a", Conn.fresh),
       ("b", { closed := false, broken := false, calls := [Call.writeJSON fromA] }),
       ("c", { closed := false, broken := false, calls := [Call.writeJSON fromA] }),
       ("d", Conn.fresh)] ∧
    ((∀ p ∈ trio.mapper.Get fromA.From, ∀ c, trio.clients.get p = some c →
      (trio.eventloop fromA ["b", "c"]).1.clients.get p =
        some { closed := c.closed, broken := c.broken,
               calls := c.calls ++ [Call.writeJSON fromA] }) ∧
    (∀ q, q ∉ trio.mapper.Get fromA.From →
      (trio.eventloop fromA ["b", "c"]).1.clients.get q = trio.clients.get q) ∧
    (trio.eventloop fromA ["b", "c"]).1.mapper = trio.mapper ∧
    (∀ p, (trio.eventloop fromA ["b", "c"]).2.countP (fun a => a.1 = p) =
        if p ∈ trio.mapper.Get fromA.From then 1 else 0) ∧
    (∀ a ∈ (trio.eventloop fromA ["b", "c"]).2, a.2 = fromA)) :=
  ⟨by decide, by decide, by decide,
    C1_fanout_exact trio fromA ["b", "c"] (by decide) (by decide)⟩

/-- C2. Trust boundary on `From` in `ServeWS`: when the inbound frame decodes
to `msg`, the message sent on the broadcast queue has `From = room`; and a
frame that differs from it only in members named `from` yields the same
message. -/
theorem C2_from_is_room (room : String) (frame : Frame) (msg : Message)
    (hdec : readPass room frame = some msg) :
    msg.From = room ∧
    ∀ members other : List (String × JVal), frame = Frame.object members →
      withoutFrom other = withoutFrom members →
      readPass room (Frame.object other) = some msg := by
  refine ⟨readPass_From room frame msg hdec, ?_⟩
  intro members other hf hsame
  subst hf
  unfold readPass ReadJSON at hdec ⊢
  simp only at hdec ⊢
  rw [← decodeMembers_withoutFrom other, hsame, decodeMembers_withoutFrom members]
  exact hdec

/-- Witness of C2: the frame of the round-trip scenario with a member `from`,
and the same frame with another member `from` in another place. -/
theorem C2_from_is_room_witness :
    readPass "1" (Frame.object [("data", JVal.str "hi"), ("from", JVal.str "9"),
        ("token", JVal.str "t"), ("type", JVal.str "chat")]) = some fromOne ∧
    withoutFrom [("From", JVal.other), ("data", JVal.str "hi"),
        ("token", JVal.str "t"), ("type", JVal.str "chat")]
      = withoutFrom [("data", JVal.str "hi"), ("from", JVal.str "9"),
        ("token", JVal.str "t"), ("type", JVal.str "chat")] ∧
    fromOne.From = "1" ∧
    readPass "1" (Frame.object [("From", JVal.other), ("data", JVal.str "hi"),
        ("token", JVal.str "t"), ("type", JVal.str "chat")]) = some fromOne :=
  ⟨by decide, by decide,
    (C2_from_is_room "1" (Frame.object [("data", JVal.str "hi"), ("from", JVal.str "9"),
        ("token", JVal.str "t"), ("type", JVal.str "chat")]) fromOne (by decide)).1,
    (C2_from_is_room "1" (Frame.object [("data", JVal.str "hi"), ("from", JVal.str "9"),
        ("token", JVal.str "t"), ("type", JVal.str "chat")]) fromOne (by decide)).2
      [("data", JVal.str "hi"), ("from", JVal.str "9"),
        ("token", JVal.str "t"), ("type", JVal.str "chat")]
      [("From", JVal.other), ("data", JVal.str "hi"),
        ("token", JVal.str "t"), ("type", JVal.str "chat")] rfl (by decide)⟩

/-- C3, refuted as stated. Peers "1" and "2" are connected and the socket of
peer "2" fails its writes. When `Broadcast` to "2" returns, it has returned an
error and purged "2" from the mapper, and "2" is still a key of `clients`,
mapped to its socket, now closed: `Broadcast` itself deletes no entry of
`clients`. The entry goes when the handler of "2", woken by the `Close`, runs
its deferred function. -/
theorem C3_registry_entry_outlives_broadcast :
    (twoPeersBroken.Broadcast "1" "2" hello).err = true ∧
    (twoPeersBroken.Broadcast "1" "2" hello).server.mapper = ∅ ∧
    (twoPeersBroken.Broadcast "1" "2" hello).server.clients.keys = ["1", "2"] ∧
    (twoPeersBroken.Broadcast "1" "2" hello).server.clients.get "2" =
      some { closed := true, broken := true,
             calls := [Call.writeJSON hello, Call.close] } ∧
    ((twoPeersBroken.Broadcast "1" "2" hello).server.wake "2").clients.keys = ["1"] := by
  decide

/-- C3, amended. After a delivery failure to peer `P`, when `Broadcast`
returns it has returned the error, `P` is absent from the mapper (no fanout
set contains it and its own fanout set is empty) and the socket of `P` has
had `WriteJSON(msg)` and `Close` called on it, while `P` is still registered
in `clients` with that closed socket; once the handler of `P`, woken by the
`Close`, has run its deferred function, `P` is absent from `clients` and from
the mapper. -/
theorem C3_eviction_in_two_steps (s : Server) (sender P : String) (msg : Message)
    (c : Conn Message)
    (hc : s.clients.get P = some c)
    (hw : c.writeFails = true) :
    (s.Broadcast sender P msg).err = true ∧
    (∀ a, P ∉ (s.Broadcast sender P msg).server.mapper.Get a) ∧
    (s.Broadcast sender P msg).server.mapper.Get P = ∅ ∧
    (s.Broadcast sender P msg).server.clients.get P =
      some { closed := true, broken := c.broken,
             calls := c.calls ++ [Call.writeJSON msg, Call.close] } ∧
    ((s.Broadcast sender P msg).server.wake P).clients.get P = none ∧
    (∀ a, P ∉ ((s.Broadcast sender P msg).server.wake P).mapper.Get a) := by
  have hmap : (s.clients.get P).map Conn.writeFails = some true := by simp [hc, hw]
  obtain ⟨hm, he⟩ := Server.Broadcast_failure s sender P msg hmap
  have hget := Server.Broadcast_get_self s sender P msg c hc
  simp only [hw, if_true] at hget
  have hwake : (s.Broadcast sender P msg).server.wake P
      = (s.Broadcast sender P msg).server.cleanup P := by
    simp [Server.wake, hget]
  refine ⟨he, ?_, ?_, hget, ?_, ?_⟩
  · intro a
    rw [hm]
    exact Mapper.not_mem_Get_Delete s.mapper P a
  · rw [hm]
    exact Mapper.Get_Delete_self s.mapper P
  · rw [hwake]
    exact Clients.get_delete_self _ P
  · intro a
    rw [hwake]
    exact Mapper.not_mem_Get_Delete _ P a

/-- Witness of the amended C3 on the server `trioBroken`, whose peer "b" has
a socket that fails its writes. -/
theorem C3_eviction_in_two_steps_witness :
    trioBroken.clients.get "b" = some brokenConn ∧
    brokenConn.writeFails = true ∧
    ((trioBroken.Broadcast "a" "b" fromA).err = true ∧
    (∀ a, "b" ∉ (trioBroken.Broadcast "a" "b" fromA).server.mapper.Get a) ∧
    (trioBroken.Broadcast "a" "b" fromA).server.mapper.Get "b" = ∅ ∧
    (trioBroken.Broadcast "a" "b" fromA).server.clients.get "b" =
      some { closed := true, broken := brokenConn.broken,
             calls := brokenConn.calls ++ [Call.writeJSON fromA, Call.close] } ∧
    ((trioBroken.Broadcast "a" "b" fromA).server.wake "b").clients.get "b" = none ∧
    (∀ a, "b" ∉ ((trioBroken.Broadcast "a" "b" fromA).server.wake "b").mapper.Get a)) :=
  ⟨by decide, by decide,
    C3_eviction_in_two_steps trioBroken "a" "b" fromA brokenConn (by decide) (by decide)⟩

/-- C4. A delivery failure does not abort the fanout: when the write to a peer
`P` of the fanout set fails, `eventloop` has called `WriteJSON(msg)` and then
`Close` on the socket of `P`, and it has still called `WriteJSON(msg)` exactly
once on the socket of every other registered peer of the set (followed by
`Close` only where that write fails too), whatever the order in which `range`
yields the peers; the trace of delivery attempts has one entry for each of
them, and `P` has been purged from the mapper when the loop ends. -/
theorem C4_failure_does_not_abort (s : Server) (msg : Message) (order : List String)
    (P : String) (cP : Conn Message)
    (hord : RangeOrder order (s.mapper.Get msg.From))
    (hP : P ∈ s.mapper.Get msg.From)
    (hcP : s.clients.get P = some cP)
    (hfail : cP.writeFails = true) :
    (s.eventloop msg order).1.clients.get P =
      some { closed := true, broken := cP.broken,
             calls := cP.calls ++ [Call.writeJSON msg, Call.close] } ∧
    (∀ q ∈ s.mapper.Get msg.From, q ≠ P → ∀ c, s.clients.get q = some c →
      (s.eventloop msg order).1.clients.get q =
        some (if c.writeFails then
            { closed := true, broken := c.broken,
              calls := c.calls ++ [Call.writeJSON msg, Call.close] }
          else
            { closed := c.closed, broken := c.broken,
              calls := c.calls ++ [Call.writeJSON msg] })) ∧
    (∀ q ∈ s.mapper.Get msg.From, q ≠ P → (s.clients.get q).isSome = true →
      (s.eventloop msg order).2.countP (fun a => a.1 = q) = 1 ∧
      (q, msg) ∈ (s.eventloop msg order).2) ∧
    (P, msg) ∈ (s.eventloop msg order).2 ∧
    (∀ a, P ∉ (s.eventloop msg order).1.mapper.Get a) := by
  have hmemS : ∀ p, p ∈ s.mapper.Get msg.From → p ∈ order := by
    intro p hp
    exact List.mem_toFinset.1 (by rw [hord.2]; exact hp)
  have hPo : P ∈ order := hmemS P hP
  have hreg : ∀ q, q ∈ order → (s.clients.get q).isSome = true →
      q ∈ order.filter (fun p => (s.clients.get p).isSome) := by
    intro q hq hs
    exact List.mem_filter.2 ⟨hq, hs⟩
  have hPs : (s.clients.get P).isSome = true := by rw [hcP]; rfl
  have hmap : (s.clients.get P).map Conn.writeFails = some true := by simp [hcP, hfail]
  refine ⟨?_, ?_, ?_, ?_, ?_⟩
  · have h := Server.fanout_get_of_mem msg P cP order s hord.1 hPo hcP
    simpa [Server.eventloop, hfail] using h
  · intro q hq _ c hc
    exact Server.fanout_get_of_mem msg q c order s hord.1 (hmemS q hq) hc
  · intro q hq _ hs
    rw [Server.eventloop_attempts]
    refine ⟨?_, List.mem_map.2 ⟨q, hreg q (hmemS q hq) hs, rfl⟩⟩
    rw [countP_attempts, List.count_eq_of_nodup (hord.1.filter _)]
    simp [hreg q (hmemS q hq) hs]
  · rw [Server.eventloop_attempts]
    exact List.mem_map.2 ⟨P, hreg P hPo hPs, rfl⟩
  · intro a hmem
    have hsub := Server.fanout_purged msg P order s hPo hord.1 hmap
    have hget := Mapper.Get_mono hsub a hmem
    exact Mapper.not_mem_Get_Delete s.mapper P a hget

/-- Witness of C4 on the server `trioBroken`: the write to "b" fails and its
socket is closed, the socket of "c" still gets the frame. -/
theorem C4_failure_does_not_abort_witness :
    RangeOrder ["b", "c"] (trioBroken.mapper.Get fromA.From) ∧
    "b" ∈ trioBroken.mapper.Get fromA.From ∧
    trioBroken.clients.get "b" = some brokenConn ∧
    brokenConn.writeFails = true ∧
    (trioBroken.eventloop fromA ["b", "c"]).1.clients =
      [("a", Conn.fresh),
       ("b", { closed := true, broken := true,
               calls := [Call.writeJSON fromA, Call.close] }),
       ("c", { closed := false, broken := false, calls := [Call.writeJSON fromA] }),
       ("d", Conn.fresh)] ∧
    ((trioBroken.eventloop fromA ["b", "c"]).1.clients.get "b" =
      some { closed := true, broken := brokenConn.broken,
             calls := brokenConn.calls ++ [Call.writeJSON fromA, Call.close] } ∧
    (∀ q ∈ trioBroken.mapper.Get fromA.From, q ≠ "b" → ∀ c,
      trioBroken.clients.get q = some c →
      (trioBroken.eventloop fromA ["b", "c"]).1.clients.get q =
        some (if c.writeFails then
            { closed := true, broken := c.broken,
              calls := c.calls ++ [Call.writeJSON fromA, Call.close] }
          else
            { closed := c.closed, broken := c.broken,
              calls := c.calls ++ [Call.writeJSON fromA] })) ∧
    (∀ q ∈ trioBroken.mapper.Get fromA.From, q ≠ "b" →
        (trioBroken.clients.get q).isSome = true →
        (trioBroken.eventloop fromA ["b", "c"]).2.countP (fun a => a.1 = q) = 1 ∧
        (q, fromA) ∈ (trioBroken.eventloop fromA ["b", "c"]).2) ∧
     ("b", fromA) ∈ (trioBroken.eventloop fromA ["b", "c"]).2 ∧
     (∀ a, "b" ∉ (trioBroken.eventloop fromA ["b", "c"]).1.mapper.Get a)) :=
  ⟨by decide, by decide, by decide, by decide, by decide,
    C4_failure_does_not_abort trioBroken fromA ["b", "c"] "b" brokenConn (by decide)
      (by decide) (by decide) (by decide)⟩

/-- C5. Disconnect scenario: once the deferred function of the handler of `P`
has run, `Broadcast` to `P` writes nothing and returns nil, and handling any
message makes no delivery attempt to `P`; in the two-peer fixture, after peer
"2" disconnects a message from peer "1" produces no delivery attempt at all. -/
theorem C5_disconnected_peer (s : Server) (P sender : String) (msg : Message)
    (order : List String) (c1 c2 : Conn Message) (msg1 : Message) (order1 : List String)
    (hfrom : msg1.From = "1")
    (hord : RangeOrder order1
      ((((New.register c1).register c2).cleanup "2").mapper.Get msg1.From)) :
    (s.cleanup P).Broadcast sender P msg
      = { server := s.cleanup P, err := false, attempts := [] } ∧
    (∀ a ∈ ((s.cleanup P).eventloop msg order).2, a.1 ≠ P) ∧
    ((((New.register c1).register c2).cleanup "2").eventloop msg1 order1).2 = [] := by
  have hnone : (s.cleanup P).clients.get P = none := Clients.get_delete_self s.clients P
  refine ⟨Server.Broadcast_unregistered _ sender P msg hnone, ?_, ?_⟩
  · intro a ha
    rw [Server.eventloop_attempts] at ha
    obtain ⟨q, hq, rfl⟩ := List.mem_map.1 ha
    intro hqP
    have hsome := (List.mem_filter.1 hq).2
    simp only at hqP
    rw [hqP, hnone] at hsome
    simp at hsome
  · have hempty : (((New.register c1).register c2).cleanup "2").mapper.Get msg1.From = ∅ := by
      rw [register_two, hfrom]
      show (Mapper.Delete {("1", "2"), ("2", "1")} "2").Get "1" = ∅
      decide
    rw [hempty] at hord
    rw [RangeOrder.eq_nil hord]
    rfl

/-- Witness of C5: the two-peer fixture, and the server `trio` after the
handler of "b" has returned. -/
theorem C5_disconnected_peer_witness :
    hello.From = "1" ∧
    RangeOrder []
      ((((New.register Conn.fresh).register Conn.fresh).cleanup "2").mapper.Get hello.From) ∧
    ((trio.cleanup "b").Broadcast "a" "b" fromA
      = { server := trio.cleanup "b", err := false, attempts := [] } ∧
    (∀ a ∈ ((trio.cleanup "b").eventloop fromA ["c"]).2, a.1 ≠ "b") ∧
    ((((New.register Conn.fresh).register Conn.fresh).cleanup "2").eventloop hello []).2
      = []) :=
  ⟨by decide, by decide,
    C5_disconnected_peer trio "b" "a" fromA ["c"] Conn.fresh Conn.fresh hello []
      (by decide) (by decide)⟩

/-- C6. Connect scenario: on a new server the first two accepted connections
are assigned the peer-ids "1" and "2" and the mapper then holds exactly the
edges 1→2 and 2→1; the frame with the single member data = "hello" read from
peer "1" is published as `hello` (From "1", Data "hello"); handling it makes
exactly one delivery attempt, to peer "2", and when the socket of peer "2"
accepts the write, that socket has the one message written on it and the
socket of peer "1" is untouched. -/
theorem C6_connect_scenario (c1 c2 : Conn Message) (order : List String)
    (hw : c2.writeFails = false)
    (hord : RangeOrder order (((New.register c1).register c2).mapper.Get hello.From)) :
    New.room = "1" ∧ (New.register c1).room = "2" ∧
    New.mapper = ∅ ∧
    ((New.register c1).register c2).mapper = {("1", "2"), ("2", "1")} ∧
    readPass "1" (Frame.object [("data", JVal.str "hello")]) = some hello ∧
    (((New.register c1).register c2).eventloop hello order).2 = [("2", hello)] ∧
    (((New.register c1).register c2).eventloop hello order).1.clients
      = [("1", c1), ("2", { c2 with calls := c2.calls ++ [Call.writeJSON hello] })] := by
  have hget : ((New.register c1).register c2).mapper.Get hello.From = {"2"} := by
    rw [register_two]
    show (Mapper.Get {("1", "2"), ("2", "1")} "1") = {"2"}
    decide
  rw [hget] at hord
  rw [RangeOrder.eq_singleton hord, register_two]
  refine ⟨by decide, ?_, by decide, rfl, by decide, ?_, ?_⟩
  · have h1 : Sprint 1 = "1" := by decide
    have h2 : Sprint 2 = "2" := by decide
    simp [Server.register, Server.room, New, Clients.set, h1, h2]
  · simp [Server.eventloop, Server.fanout, Server.Broadcast, Clients.get, Conn.WriteJSON, hw]
  · simp [Server.eventloop, Server.fanout, Server.Broadcast, Clients.get, Clients.set,
      Conn.WriteJSON, hw]

/-- Witness of C6 with two fresh sockets. -/
theorem C6_connect_scenario_witness :
    (Conn.fresh : Conn Message).writeFails = false ∧
    RangeOrder ["2"]
      (((New.register Conn.fresh).register Conn.fresh).mapper.Get hello.From) ∧
    (New.room = "1" ∧ (New.register Conn.fresh).room = "2" ∧
    New.mapper = ∅ ∧
    ((New.register Conn.fresh).register Conn.fresh).mapper = {("1", "2"), ("2", "1")} ∧
    readPass "1" (Frame.object [("data", JVal.str "hello")]) = some hello ∧
    (((New.register Conn.fresh).register Conn.fresh).eventloop hello ["2"]).2
      = [("2", hello)] ∧
    (((New.register Conn.fresh).register Conn.fresh).eventloop hello ["2"]).1.clients
      = [("1", Conn.fresh),
         ("2", { (Conn.fresh : Conn Message) with
                 calls := (Conn.fresh : Conn Message).calls ++ [Call.writeJSON hello] })]) :=
  ⟨by decide, by decide,
    C6_connect_scenario Conn.fresh Conn.fresh ["2"] (by decide) (by decide)⟩

theorem digitChar_value (d : Nat) (h : d < 10) : (Nat.digitChar d).toNat - 48 = d := by
  interval_cases d <;> rfl

theorem digitsValue_toDigitsCore (fuel : Nat) :
    ∀ (n : Nat) (ds : List Char), n < fuel →
      digitsValue 0 (Nat.toDigitsCore 10 fuel n ds) = digitsValue n ds := by
  induction fuel with
  | zero => intro n ds h; omega
  | succ fuel ih =>
    intro n ds h
    have hd : (Nat.digitChar (n % 10)).toNat - 48 = n % 10 :=
      digitChar_value _ (Nat.mod_lt _ (by decide))
    simp only [Nat.toDigitsCore]
    by_cases h0 : n / 10 = 0
    · simp only [h0, if_true]
      have hn : n % 10 = n := by omega
      rw [hn] at hd
      simp [digitsValue, hn, hd]
    · simp only [h0, if_false]
      rw [ih (n / 10) _ (by omega)]
      have : n / 10 * 10 + n % 10 = n := by omega
      simp [digitsValue, hd, this]

theorem Sprint_injective : Function.Injective Sprint := by
  intro a b h
  have hv : ∀ n, digitsValue 0 (Sprint n).data = n := by
    intro n
    have := digitsValue_toDigitsCore (n + 1) n [] (by omega)
    simpa [Sprint, Nat.repr, Nat.toDigits, List.asString, digitsValue] using this
  rw [← hv a, ← hv b, h]

theorem Clients.set_of_not_mem (cs : Clients) (k : String) (c : Conn Message)
    (h : k ∉ cs.keys) : cs.set k c = cs ++ [(k, c)] := by
  induction cs with
  | nil => rfl
  | cons kc rest ih =>
    obtain ⟨k0, c0⟩ := kc
    have h0 : k0 ≠ k := fun e => h (by simp [Clients.keys, e])
    have hr : k ∉ Clients.keys rest := fun e => h (by
      simp only [Clients.keys, List.map_cons, List.mem_cons]
      exact Or.inr e)
    simp only [Clients.set, h0, if_false, List.cons_append]
    rw [ih hr]

theorem Server.Ordinal.room_not_mem {s : Server} (h : s.Ordinal) :
    s.room ∉ s.clients.keys := by
  rw [h]
  intro hm
  obtain ⟨i, hi, he⟩ := List.mem_map.1 hm
  have := Sprint_injective he
  have hlt := List.mem_range.1 hi
  omega

theorem Server.Ordinal.register {s : Server} (h : s.Ordinal) (ws : Conn Message) :
    (s.register ws).Ordinal := by
  have hset := Clients.set_of_not_mem s.clients s.room ws h.room_not_mem
  unfold Server.Ordinal at h ⊢
  simp only [Server.register, hset]
  simp only [Clients.keys, List.map_append, List.length_append, List.map_cons, List.map_nil,
    List.length_singleton, List.range_succ] at h ⊢
  rw [h]
  rfl

theorem Server.Ordinal.cleanup_last {s : Server} (h : s.Ordinal) :
    (s.cleanup (Sprint s.clients.length)).Ordinal := by
  unfold Server.Ordinal at h ⊢
  simp only [Server.cleanup]
  obtain ⟨cs, m⟩ := s
  simp only at h ⊢
  rcases List.eq_nil_or_concat cs with hnil | ⟨front, last, hcs⟩
  · subst hnil
    rfl
  · subst hcs
    obtain ⟨k, c⟩ := last
    simp only [Clients.keys, List.concat_eq_append, List.map_append, List.map_cons, List.map_nil,
      List.length_append, List.length_singleton, List.range_succ] at h
    obtain ⟨hfront, hk⟩ := List.append_inj h (by simp)
    have hk2 : k = Sprint (front.length + 1) := by simpa using hk
    have hkeep : List.filter (fun kc : String × Conn Message =>
        decide (kc.1 ≠ Sprint (front.length + 1))) front = front := by
      apply List.filter_eq_self.2
      intro kc hkc
      have hmem : kc.1 ∈ List.map Prod.fst front := List.mem_map.2 ⟨kc, hkc, rfl⟩
      rw [hfront] at hmem
      obtain ⟨i, hi, he⟩ := List.mem_map.1 hmem
      have hlt := List.mem_range.1 hi
      have hne : Sprint (i + 1) ≠ Sprint (front.length + 1) := by
        intro e
        have := Sprint_injective e
        omega
      rw [← he]
      simpa using hne
    simp only [Clients.delete, Clients.keys, List.concat_eq_append, List.length_append,
      List.length_singleton, List.filter_append, hkeep]
    rw [List.filter_cons_of_neg (by simp [hk2])]
    simpa using hfront

theorem Server.Ordinal.run (events : List Event) :
    ∀ s : Server, s.Ordinal → s.lastFirst events = true → (s.run events).Ordinal := by
  induction events with
  | nil => intro s h _; exact h
  | cons e rest ih =>
    intro s h hv
    cases e with
    | connect ws =>
      exact ih (s.register ws) (h.register ws) (by simpa [Server.lastFirst] using hv)
    | disconnect room =>
      simp only [Server.lastFirst, Bool.and_eq_true, decide_eq_true_eq] at hv
      have hc := h.cleanup_last
      rw [← hv.1] at hc
      exact ih (s.cleanup room) hc hv.2

/-- C7, refuted as stated. After peers "1" and "2" connect and peer "1"
disconnects, the id assigned to the next connection is "2", the id of the
live peer "2", and registering the new connection replaces the socket of that
peer in `clients`. -/
theorem C7_id_collision :
    (New.run [Event.connect Conn.fresh, Event.connect Conn.fresh,
        Event.disconnect "1"]).clients = [("2", Conn.fresh)] ∧
    (New.run [Event.connect Conn.fresh, Event.connect Conn.fresh,
        Event.disconnect "1"]).room = "2" ∧
    (New.run [Event.connect Conn.fresh, Event.connect Conn.fresh,
        Event.disconnect "1"]).room ∈
      (New.run [Event.connect Conn.fresh, Event.connect Conn.fresh,
        Event.disconnect "1"]).clients.keys ∧
    (New.run [Event.connect Conn.fresh, Event.connect Conn.fresh,
        Event.disconnect "1", Event.connect brokenConn]).clients = [("2", brokenConn)] := by
  decide

theorem Clients.keys_set_of_mem (cs : Clients) (k : String) (c : Conn Message)
    (h : k ∈ cs.keys) : (cs.set k c).keys = cs.keys := by
  induction cs with
  | nil => simp [Clients.keys] at h
  | cons kc rest ih =>
    obtain ⟨k0, c0⟩ := kc
    by_cases h0 : k0 = k
    · simp [Clients.set, Clients.keys, h0]
    · have hr : k ∈ Clients.keys rest := by
        simp only [Clients.keys, List.map_cons, List.mem_cons] at h
        rcases h with h | h
        · exact absurd h.symm h0
        · exact h
      have := ih hr
      simp only [Clients.keys] at this
      simp [Clients.set, Clients.keys, h0, this]

theorem Clients.keys_delete (cs : Clients) (k : String) :
    (cs.delete k).keys = cs.keys.filter (fun x => decide (x ≠ k)) := by
  induction cs with
  | nil => rfl
  | cons kc rest ih =>
    obtain ⟨k0, c0⟩ := kc
    unfold Clients.delete Clients.keys at ih ⊢
    by_cases h0 : k0 = k
    · simp [List.filter_cons, h0] at ih ⊢
      exact ih
    · simp [List.filter_cons, h0] at ih ⊢
      exact ih

theorem Server.run_append (s : Server) (e1 e2 : List Event) :
    s.run (e1 ++ e2) = (s.run e1).run e2 := by
  simp [Server.run, List.foldl_append]

theorem Server.Ordinal.run_connects (conns : List (Conn Message)) :
    ∀ s : Server, s.Ordinal →
      (s.run (connects conns)).Ordinal ∧
      (s.run (connects conns)).clients.length = s.clients.length + conns.length := by
  induction conns with
  | nil => intro s h; exact ⟨h, rfl⟩
  | cons c rest ih =>
    intro s h
    have hlen : (s.register c).clients.length = s.clients.length + 1 := by
      simp [Server.register, Clients.set_of_not_mem s.clients s.room c h.room_not_mem]
    obtain ⟨h1, h2⟩ := ih (s.register c) (h.register c)
    refine ⟨h1, ?_⟩
    have : (s.run (connects (c :: rest))) = (s.register c).run (connects rest) := rfl
    rw [this, h2, hlen, List.length_cons]
    omega

theorem Server.Ordinal.bounded {s : Server} (h : s.Ordinal) : s.Bounded := by
  intro k hk
  rw [h] at hk
  exact hk

theorem filter_range_length (k n : Nat) :
    ((List.range n).filter (fun i => decide (i + 1 ≠ k))).length
      = if 1 ≤ k ∧ k ≤ n then n - 1 else n := by
  induction n with
  | zero =>
    have : ¬ (1 ≤ k ∧ k ≤ 0) := by omega
    simp [this]
  | succ n ih =>
    rw [List.range_succ, List.filter_append, List.length_append, ih]
    have hfilt : (List.filter (fun i => decide (i + 1 ≠ k)) [n]).length
        = if n + 1 = k then 0 else 1 := by
      by_cases hk : n + 1 = k <;> simp [List.filter_cons, hk]
    rw [hfilt]
    split_ifs <;> omega

theorem Server.Ordinal.keys_cleanup {s : Server} (h : s.Ordinal) (k : Nat) :
    (s.cleanup (Sprint k)).clients.keys =
      ((List.range s.clients.length).filter (fun i => decide (i + 1 ≠ k))).map
        (fun i => Sprint (i + 1)) := by
  simp only [Server.cleanup]
  rw [Clients.keys_delete, h, List.filter_map]
  congr 1
  apply List.filter_congr
  intro i _
  simp only [Function.comp, decide_eq_decide]
  constructor
  · intro hne e
    exact hne (by rw [e])
  · intro hne e
    exact hne (Sprint_injective e)

theorem Server.collision_after_disconnect (conns : List (Conn Message)) (k : Nat)
    (h1 : 1 ≤ k) (h2 : k < conns.length) :
    (New.run (connects conns ++ [Event.disconnect (Sprint k)])).room = Sprint conns.length ∧
    Sprint conns.length ∈
      (New.run (connects conns ++ [Event.disconnect (Sprint k)])).clients.keys := by
  have hnew : New.Ordinal := rfl
  obtain ⟨hord, hlen⟩ := Server.Ordinal.run_connects conns New hnew
  have hlen2 : (New.run (connects conns)).clients.length = conns.length := by
    rw [hlen]
    simp [New]
  have hrun : New.run (connects conns ++ [Event.disconnect (Sprint k)])
      = (New.run (connects conns)).cleanup (Sprint k) := by
    rw [Server.run_append]
    rfl
  have hkeys := hord.keys_cleanup k
  rw [hlen2] at hkeys
  have hcount : ((New.run (connects conns)).cleanup (Sprint k)).clients.length
      = conns.length - 1 := by
    have : ((New.run (connects conns)).cleanup (Sprint k)).clients.length
        = ((New.run (connects conns)).cleanup (Sprint k)).clients.keys.length := by
      simp [Clients.keys]
    rw [this, hkeys, List.length_map, filter_range_length]
    simp [h1, Nat.le_of_lt h2]
  rw [hrun]
  constructor
  · simp only [Server.room, hcount]
    congr 1
    omega
  · rw [hkeys]
    refine List.mem_map.2 ⟨conns.length - 1, ?_, ?_⟩
    · refine List.mem_filter.2 ⟨List.mem_range.2 (by omega), ?_⟩
      simp only [decide_eq_true_eq]
      omega
    · congr 1
      omega

/-- C7, amended. In every server state the peer-id assigned to a newly
accepted connection is the numeral of `len(clients) + 1`. Where that id is not
registered, registering the connection keeps every entry of `clients` and
adds one; where it is registered, registering replaces the socket of the live
peer of that id and adds no entry. The id is not registered in every state
whose registered ids are numerals of numbers from 1 to `len(clients)`; the
states reached from a new server by connects and by disconnects of the peer
registered last among those still registered are such states. The id is
registered in every state reached by at least two connects followed by the
disconnect of any peer `k` other than the last. -/
theorem C7_ordinal_ids (s : Server) (ws : Conn Message) (events : List Event)
    (conns : List (Conn Message)) (k : Nat) :
    (s.room ∉ s.clients.keys →
      (s.register ws).clients = s.clients ++ [(s.room, ws)]) ∧
    (s.room ∈ s.clients.keys →
      (s.register ws).clients.keys = s.clients.keys ∧
      (s.register ws).clients.get s.room = some ws) ∧
    (s.Bounded → s.room ∉ s.clients.keys) ∧
    (New.lastFirst events = true → (New.run events).Bounded) ∧
    (1 ≤ k → k < conns.length →
      (New.run (connects conns ++ [Event.disconnect (Sprint k)])).room
        = Sprint conns.length ∧
      Sprint conns.length ∈
        (New.run (connects conns ++ [Event.disconnect (Sprint k)])).clients.keys) := by
  refine ⟨?_, ?_, ?_, ?_, ?_⟩
  · intro h
    exact Clients.set_of_not_mem _ _ ws h
  · intro h
    exact ⟨Clients.keys_set_of_mem _ _ ws h, Clients.get_set_same _ _ ws⟩
  · intro hb hm
    obtain ⟨i, hi, he⟩ := List.mem_map.1 (hb _ hm)
    have := Sprint_injective he
    have hlt := List.mem_range.1 hi
    omega
  · intro hv
    exact (Server.Ordinal.run events New rfl hv).bounded
  · intro h1 h2
    exact Server.collision_after_disconnect conns k h1 h2

/-- Witness of the amended C7. The state after connect, connect, disconnect
"1", disconnect "2" has only numerals from 1 to `len(clients)` registered, and
so has the state after connect, connect, disconnect "2", connect: the id
assigned next is not registered and registering adds an entry. After connect,
connect, disconnect "1" the id assigned next is "2", registered, and
registering replaces the socket of peer "2". -/
theorem C7_ordinal_ids_witness :
    (New.run [Event.connect Conn.fresh, Event.connect Conn.fresh,
      Event.disconnect "1", Event.disconnect "2"]).Bounded ∧
    New.lastFirst [Event.connect Conn.fresh, Event.connect Conn.fresh,
      Event.disconnect "2", Event.connect Conn.fresh] = true ∧
    (1 ≤ 1 ∧ 1 < [(Conn.fresh : Conn Message), Conn.fresh].length) ∧
    (New.run [Event.connect Conn.fresh, Event.connect Conn.fresh,
      Event.disconnect "1", Event.disconnect "2"]).room ∉
      (New.run [Event.connect Conn.fresh, Event.connect Conn.fresh,
        Event.disconnect "1", Event.disconnect "2"]).clients.keys ∧
    (New.run [Event.connect Conn.fresh, Event.connect Conn.fresh,
      Event.disconnect "2", Event.connect Conn.fresh]).Bounded ∧
    ((New.run (connects [Conn.fresh, Conn.fresh] ++ [Event.disconnect (Sprint 1)])).room
        = Sprint [(Conn.fresh : Conn Message), Conn.fresh].length ∧
      Sprint [(Conn.fresh : Conn Message), Conn.fresh].length ∈
        (New.run (connects [Conn.fresh, Conn.fresh] ++
          [Event.disconnect (Sprint 1)])).clients.keys) ∧
    (((New.run (connects [Conn.fresh, Conn.fresh] ++
        [Event.disconnect (Sprint 1)])).register brokenConn).clients.keys
      = (New.run (connects [Conn.fresh, Conn.fresh] ++
          [Event.disconnect (Sprint 1)])).clients.keys ∧
     ((New.run (connects [Conn.fresh, Conn.fresh] ++
        [Event.disconnect (Sprint 1)])).register brokenConn).clients.get
        (New.run (connects [Conn.fresh, Conn.fresh] ++
          [Event.disconnect (Sprint 1)])).room = some brokenConn) ∧
    ((New.run [Event.connect Conn.fresh, Event.connect Conn.fresh,
        Event.disconnect "1", Event.disconnect "2"]).register brokenConn).clients
      = (New.run [Event.connect Conn.fresh, Event.connect Conn.fresh,
          Event.disconnect "1", Event.disconnect "2"]).clients ++
        [((New.run [Event.connect Conn.fresh, Event.connect Conn.fresh,
          Event.disconnect "1", Event.disconnect "2"]).room, brokenConn)] :=
  ⟨by decide, by decide, by decide,
    (C7_ordinal_ids
      (New.run [Event.connect Conn.fresh, Event.connect Conn.fresh,
        Event.disconnect "1", Event.disconnect "2"]) brokenConn [] [] 0).2.2.1 (by decide),
    (C7_ordinal_ids New brokenConn
      [Event.connect Conn.fresh, Event.connect Conn.fresh,
        Event.disconnect "2", Event.connect Conn.fresh] [] 0).2.2.2.1 (by decide),
    (C7_ordinal_ids New brokenConn [] [Conn.fresh, Conn.fresh] 1).2.2.2.2
      (by decide) (by decide),
    (C7_ordinal_ids
      (New.run (connects [Conn.fresh, Conn.fresh] ++ [Event.disconnect (Sprint 1)]))
      brokenConn [] [] 0).2.1 (by decide),
    (C7_ordinal_ids
      (New.run [Event.connect Conn.fresh, Event.connect Conn.fresh,
        Event.disconnect "1", Event.disconnect "2"]) brokenConn [] [] 0).1 (by decide)⟩

end server

/-! ## Properties of the subscription pumps -/

namespace chat

open websocket

theorem Subscription.writeLoop_calls (closed : Bool) (ms : List Message) :
    ∀ conn : Conn Message,
      (Subscription.writeLoop conn closed ms).1.calls =
        conn.calls ++ writeCalls ms ++
          (if closed then [Call.setWriteDeadline, Call.writeClose] else []) := by
  induction ms with
  | nil =>
    intro conn
    cases closed <;>
      simp [Subscription.writeLoop, writeCalls, Conn.SetWriteDeadline, Conn.WriteClose]
  | cons m rest ih =>
    intro conn
    simp [Subscription.writeLoop, writeCalls, ih, Conn.SetWriteDeadline, Conn.WriteJSON]

theorem Subscription.writeLoop_returned (closed : Bool) (ms : List Message) :
    ∀ conn : Conn Message, (Subscription.writeLoop conn closed ms).2 = closed := by
  induction ms with
  | nil => intro conn; cases closed <;> simp [Subscription.writeLoop]
  | cons m rest ih => intro conn; simp [Subscription.writeLoop, ih]

theorem writeCalls_count_close (ms : List Message) :
    (writeCalls ms).count Call.writeClose = 0 := by
  induction ms with
  | nil => rfl
  | cons m rest ih => simp [writeCalls, List.count_cons, ih]

theorem Subscription.readLoop_decodeError (ms : List Message) (rest : List (Option Message)) :
    ∀ p : PubSub, p.acceptsAll ms = true →
      (Subscription.readLoop p (ms.map some ++ none :: rest)).2 = true ∧
      (Subscription.readLoop p (ms.map some ++ none :: rest)).1.published
        = p.published ++ ms := by
  induction ms with
  | nil => intro p _; simp [Subscription.readLoop]
  | cons m tail ih =>
    intro p h
    simp only [PubSub.acceptsAll, Bool.and_eq_true, Bool.not_eq_true'] at h
    have := ih (p.Publish m).1 h.2
    simp only [List.map_cons, List.cons_append, Subscription.readLoop, h.1]
    simpa [PubSub.Publish] using this

theorem Subscription.readLoop_publishError (ms : List Message) (m : Message)
    (rest : List (Option Message)) :
    ∀ p : PubSub, p.acceptsAll ms = true → ((p.handAll ms).Publish m).2 = true →
      (Subscription.readLoop p (ms.map some ++ some m :: rest)).2 = true ∧
      (Subscription.readLoop p (ms.map some ++ some m :: rest)).1.published
        = p.published ++ ms ++ [m] := by
  induction ms with
  | nil =>
    intro p _ hr
    simp only [PubSub.handAll, PubSub.Publish] at hr
    simp [Subscription.readLoop, hr, PubSub.Publish]
  | cons m0 tail ih =>
    intro p h hr
    simp only [PubSub.acceptsAll, Bool.and_eq_true, Bool.not_eq_true'] at h
    have := ih (p.Publish m0).1 h.2 hr
    simp only [List.map_cons, List.cons_append, Subscription.readLoop, h.1]
    simpa [PubSub.Publish] using this

theorem Subscription.readLoop_waiting (ms : List Message) :
    ∀ p : PubSub, p.acceptsAll ms = true →
      (Subscription.readLoop p (ms.map some)).2 = false ∧
      (Subscription.readLoop p (ms.map some)).1.published = p.published ++ ms := by
  induction ms with
  | nil => intro p _; simp [Subscription.readLoop]
  | cons m tail ih =>
    intro p h
    simp only [PubSub.acceptsAll, Bool.and_eq_true, Bool.not_eq_true'] at h
    have := ih (p.Publish m).1 h.2
    simp only [List.map_cons, Subscription.readLoop, h.1]
    simpa [PubSub.Publish] using this

/-- C8. Write pump: with the messages `ms` on the outbound queue and the queue
closed behind them, `Write` returns, and the calls it makes on the socket are,
for each message in queue order, a write deadline and the frame, then a write
deadline and one close frame; this holds whatever the state of the socket,
hence whatever the writes report. On any subscription, `Write` returns exactly
when the queue is closed. -/
theorem C8_write_pump (conn : Conn Message) (ms : List Message) (room : String)
    (s : Subscription) :
    (Subscription.Write
      { Client := { Conn := conn, Send := { queue := ms, closed := true } },
        Room := room }).2 = true ∧
    (Subscription.Write
      { Client := { Conn := conn, Send := { queue := ms, closed := true } },
        Room := room }).1.Client.Conn.calls
      = conn.calls ++ writeCalls ms ++ [Call.setWriteDeadline, Call.writeClose] ∧
    (writeCalls ms ++ [Call.setWriteDeadline, Call.writeClose]).count Call.writeClose = 1 ∧
    (s.Write.2 = true ↔ s.Client.Send.closed = true) := by
  refine ⟨?_, ?_, ?_, ?_⟩
  · simp [Subscription.Write, Subscription.writeLoop_returned]
  · simp [Subscription.Write, Subscription.writeLoop_calls]
  · rw [List.count_append, writeCalls_count_close]
    decide
  · simp [Subscription.Write, Subscription.writeLoop_returned]

/-- C9. Read pump cleanup: when the first messages `ms` decode and are accepted
by `Publish`, and the next `ReadJSON` returns an error, `Read` has handed
exactly `ms` to `Publish`, in order, has sent the subscription once on
`room.Unsubscribe` and has closed the socket once; when instead the next
message `m` decodes and `Publish` rejects it, `Read` has handed `ms` and then
`m`, and nothing after, and does the same cleanup; and as long as no error
has occurred, `Read` has neither unsubscribed nor closed the socket. -/
theorem C9_read_pump_cleanup (s : Subscription) (pubsub : PubSub) (room : Room)
    (ms : List Message) (m : Message) (rest : List (Option Message))
    (hacc : pubsub.acceptsAll ms = true) :
    ((s.Read pubsub room (ms.map some ++ none :: rest)).returned = true ∧
     (s.Read pubsub room (ms.map some ++ none :: rest)).pubsub.published
       = pubsub.published ++ ms ∧
     (s.Read pubsub room (ms.map some ++ none :: rest)).room.Unsubscribe
       = room.Unsubscribe ++
         [{ Client := { Conn := s.Client.Conn.SetReadLimit maxMessageSize,
                        Send := s.Client.Send },
            Room := s.Room }] ∧
     (s.Read pubsub room (ms.map some ++ none :: rest)).sub.Client.Conn.calls
       = s.Client.Conn.calls ++ [Call.setReadLimit maxMessageSize, Call.close]) ∧
    (((pubsub.handAll ms).Publish m).2 = true →
     (s.Read pubsub room (ms.map some ++ some m :: rest)).returned = true ∧
     (s.Read pubsub room (ms.map some ++ some m :: rest)).pubsub.published
       = pubsub.published ++ ms ++ [m] ∧
     (s.Read pubsub room (ms.map some ++ some m :: rest)).room.Unsubscribe
       = room.Unsubscribe ++
         [{ Client := { Conn := s.Client.Conn.SetReadLimit maxMessageSize,
                        Send := s.Client.Send },
            Room := s.Room }] ∧
     (s.Read pubsub room (ms.map some ++ some m :: rest)).sub.Client.Conn.calls
       = s.Client.Conn.calls ++ [Call.setReadLimit maxMessageSize, Call.close]) ∧
    ((s.Read pubsub room (ms.map some)).returned = false ∧
     (s.Read pubsub room (ms.map some)).pubsub.published = pubsub.published ++ ms ∧
     (s.Read pubsub room (ms.map some)).room.Unsubscribe = room.Unsubscribe ∧
     (s.Read pubsub room (ms.map some)).sub.Client.Conn.calls
       = s.Client.Conn.calls ++ [Call.setReadLimit maxMessageSize]) := by
  refine ⟨?_, ?_, ?_⟩
  · obtain ⟨h1, h2⟩ := Subscription.readLoop_decodeError ms rest pubsub hacc
    simp [Subscription.Read, h1, h2, Subscription.Close, Conn.Close, Conn.SetReadLimit]
  · intro hrej
    obtain ⟨h1, h2⟩ := Subscription.readLoop_publishError ms m rest pubsub hacc hrej
    simp [Subscription.Read, h1, h2, Subscription.Close, Conn.Close, Conn.SetReadLimit]
  · obtain ⟨h1, h2⟩ := Subscription.readLoop_waiting ms pubsub hacc
    simp [Subscription.Read, h1, h2, Conn.SetReadLimit]

/-- Witness of C9 on the subscription `idle` and the pubsub `picky`: one
accepted message, then a decode error, or then the rejected message "bad". -/
theorem C9_read_pump_cleanup_witness :
    picky.acceptsAll [text "a"] = true ∧
    ((picky.handAll [text "a"]).Publish (text "bad")).2 = true ∧
    (idle.Read picky { Unsubscribe := [] }
        ([text "a"].map some ++ some (text "bad") :: [some (text "b")])).pubsub.published
      = picky.published ++ [text "a"] ++ [text "bad"] ∧
    (idle.Read picky { Unsubscribe := [] }
        ([text "a"].map some ++ none :: [some (text "b")])).pubsub.published
      = picky.published ++ [text "a"] :=
  ⟨by decide, by decide,
    ((C9_read_pump_cleanup idle picky { Unsubscribe := [] } [text "a"] (text "bad")
      [some (text "b")] (by decide)).2.1 (by decide)).2.1,
    (C9_read_pump_cleanup idle picky { Unsubscribe := [] } [text "a"] (text "bad")
      [some (text "b")] (by decide)).1.2.1⟩

/-- C10, refuted as stated. On a subscription whose outbound queue is open,
`Close` leaves the queue open, and the write loop started afterwards does not
return. -/
theorem C10_close_leaves_queue_open :
    idle.Client.Send.closed = false ∧
    idle.Close.Client.Conn.closed = true ∧
    idle.Close.Client.Send.closed = false ∧
    idle.Close.Write.2 = false := by
  decide

/-- C10, amended. `Close` closes the underlying socket, by one call of its
`Close`, and leaves the outbound queue of the client as it was; the write
loop returns after it exactly when the queue had been closed. -/
theorem C10_close_closes_socket_only (s : Subscription) :
    s.Close.Client.Conn.closed = true ∧
    s.Close.Client.Conn.calls = s.Client.Conn.calls ++ [Call.close] ∧
    s.Close.Client.Send = s.Client.Send ∧
    s.Close.Room = s.Room ∧
    s.Close.Write.2 = s.Client.Send.closed := by
  simp [Subscription.Close, Conn.Close, Subscription.Write, Subscription.writeLoop_returned]

end chat
